import Mathlib

/-!
Verification development for the audio-to-subtitle tool (src/app.py).

The file shallowly embeds the pure formatting core of the program:

* `remove_punctuation` (app.py lines 27-32): punctuation regex substitution,
  whitespace collapsing, and stripping;
* `format_time` (app.py lines 35-43): seconds-to-SRT-timestamp conversion via
  Python `datetime.timedelta`;
* `generate_srt` (app.py lines 56-76): SRT document generation;
* the per-row time-edit fallback and the temporary-file lifecycle of `main`
  (app.py lines 136-179 and 205-217).

Python floats are modelled by their exact rational value (`ℚ`); a value that
`float()` rejects (or a non-finite float, on which `timedelta` raises) is
modelled as `none : Option ℚ`.  `timedelta(seconds=q)` is modelled by its
documented semantics: the total is rounded to the nearest microsecond with a
round-half-to-even tiebreaker; if the result lies outside `timedelta`'s
representable range (normalized days within ±999999999, i.e. a microsecond
total between `-999999999·86400·10^6` and `86400·10^15 - 1`) the constructor
raises `OverflowError`, which `format_time`'s bare `except` turns into the
sentinel; otherwise the total is normalized to days / seconds in [0,86400) /
microseconds in [0, 10^6).
-/

/-! ## Python whitespace

The character set matched by the regex `\s` on `str` patterns and stripped by
`str.strip()`: the Unicode whitespace characters together with U+001C..U+001F.
-/

/-- Python's whitespace test (`str.isspace`, and the character set of the regex
class `\s` for unicode patterns). -/
def pyIsSpace (c : Char) : Bool :=
  (0x09 ≤ c.toNat && c.toNat ≤ 0x0d) ||
  (0x1c ≤ c.toNat && c.toNat ≤ 0x1f) ||
  c.toNat == 0x20 || c.toNat == 0x85 || c.toNat == 0xa0 || c.toNat == 0x1680 ||
  (0x2000 ≤ c.toNat && c.toNat ≤ 0x200a) ||
  c.toNat == 0x2028 || c.toNat == 0x2029 || c.toNat == 0x202f ||
  c.toNat == 0x205f || c.toNat == 0x3000

/-- Python `str.strip()`: remove leading and trailing whitespace. -/
def pyStrip (s : String) : String :=
  ⟨((s.data.dropWhile pyIsSpace).reverse.dropWhile pyIsSpace).reverse⟩

/-! ## The punctuation regex of `remove_punctuation` (app.py line 29)

The pattern is the raw string

  `[，。！？；：""''()（）[]【】、·~@#￥%…&*+-=《》<>/\\|` ...branch 2... `]`

Inside it, the first unescaped `]` (the one in the middle of `()（）[]【】`)
closes the character class, so the class consists only of the characters
，。！？；：, the ASCII double and single quote, ASCII and fullwidth
parentheses, and `[`.  Everything after that `]` is part of the surrounding
pattern, which under Python ≥ 3.11 (where `*+` parses as a possessive
quantifier; under older Pythons the pattern does not even compile) is the
alternation of

* branch 1: one class character, then the literal run `【】、·~@#￥%…`, then
  possessively zero or more `&`, then the literal run `-=《》<>/\`;
* branch 2: the literals `competing with` an anchor: after consuming two
  characters the pattern requires `^` (start of string), which can never
  succeed, so branch 2 matches nothing.

Hence `re.sub(pattern, "", text)` deletes exactly the non-overlapping,
leftmost occurrences of branch 1; in particular a lone punctuation character
is never deleted.
-/

/-- Character class actually denoted by the (mis-quoted) pattern: everything
before the first unescaped `]`. -/
def punctClass : List Char :=
  ['，', '。', '！', '？', '；', '：', '"', Char.ofNat 39, '(', ')', '（', '）', '[']

/-- Literal run required right after the class character (branch 1). -/
def reTail1 : List Char := ['【', '】', '、', '·', '~', '@', '#', '￥', '%', '…']

/-- Literal run required after the possessive `&*+` (branch 1). -/
def reTail2 : List Char := ['-', '=', '《', '》', '<', '>', '/', '\\']

/-- Match a literal character run at the head of `cs`; return the remainder on
success. -/
def matchLits : List Char → List Char → Option (List Char)
  | [], cs => some cs
  | _ :: _, [] => none
  | l :: ls, c :: cs => if c = l then matchLits ls cs else none

/-- Attempt to match branch 1 of the pattern at the current position; on
success return the input remaining after the match. -/
def reMatchAt : List Char → Option (List Char)
  | [] => none
  | c :: rest =>
    if c ∈ punctClass then
      match matchLits reTail1 rest with
      | none => none
      | some r₁ => matchLits reTail2 (r₁.dropWhile (· = '&'))
      else none

/-- Fuelled scan of `re.sub(pattern, "", text)`: at each position, delete a
branch-1 match if one starts here, otherwise keep the character.  The fuel is
an upper bound on the number of steps; `reSubDel` supplies enough. -/
def reSubDelF : ℕ → List Char → List Char
  | 0, cs => cs
  | _ + 1, [] => []
  | fuel + 1, c :: rest =>
    match reMatchAt (c :: rest) with
    | some r => reSubDelF fuel r
    | none => c :: reSubDelF fuel rest

/-- Substitution `re.sub(pattern, "", text)` for the punctuation pattern. -/
def reSubDel (cs : List Char) : List Char := reSubDelF cs.length cs

/-- Scan of `re.sub(r'\s+', ' ', text)`: every maximal run of whitespace
characters becomes a single ASCII space.  `prevSpace` records whether the
previous character belonged to a whitespace run. -/
def wsCollapseAux (prevSpace : Bool) : List Char → List Char
  | [] => []
  | c :: rest =>
    if pyIsSpace c then
      (if prevSpace then [] else [' ']) ++ wsCollapseAux true rest
    else c :: wsCollapseAux false rest

/-- Substitution `re.sub(r'\s+', ' ', text)`. -/
def wsCollapse (cs : List Char) : List Char := wsCollapseAux false cs

/-- Embedding of `remove_punctuation` (app.py lines 27-32):
`re.sub(punctuation, "", text)`, then `re.sub(r'\s+', ' ', ...)`, then
`.strip()`. -/
def remove_punctuation (s : String) : String :=
  pyStrip ⟨wsCollapse (reSubDel s.data)⟩

example : remove_punctuation "，" = "，" := by decide
example : remove_punctuation "Hello, world!" = "Hello, world!" := by decide
example : remove_punctuation "  a  b " = "a b" := by decide

/-! ## Decimal rendering (Python `str`/format of a nonnegative integer) -/

/-- Fuelled most-significant-first decimal digits of `n`. -/
def decDigits : ℕ → ℕ → List Char
  | 0, _ => []
  | fuel + 1, n =>
    if n < 10 then [Nat.digitChar n]
    else decDigits fuel (n / 10) ++ [Nat.digitChar (n % 10)]

/-- Decimal rendering of a natural number, as Python `str` / `format` produce
it. -/
def decRepr (n : ℕ) : String := ⟨decDigits (n + 1) n⟩

/-- Python format spec `{n:02d}`: zero-pad to width two (wider numbers are
rendered in full). -/
def py02d (n : ℕ) : String := if n < 10 then "0" ++ decRepr n else decRepr n

/-- Python format spec `{n:03d}`: zero-pad to width three (wider numbers are
rendered in full). -/
def py03d (n : ℕ) : String :=
  if n < 10 then "00" ++ decRepr n
  else if n < 100 then "0" ++ decRepr n
  else decRepr n

example : decRepr 123 = "123" := by decide
example : py02d 7 = "07" := by decide
example : py03d 34 = "034" := by decide

/-! ## `format_time` (app.py lines 35-43)

The source is

  `td = timedelta(seconds=float(seconds))`
  `hours, remainder = divmod(td.seconds, 3600)`
  `minutes, seconds = divmod(remainder, 60)`
  `milliseconds = td.microseconds // 1000`
  `return f"{hours:02d}:{minutes:02d}:{seconds:02d},{milliseconds:03d}"`
  with `except: return "00:00:00,000"`.

`timedelta` rounds its float argument to a total number of microseconds with a
round-half-to-even tiebreaker.  If the normalized `days` falls outside
±999999999 the constructor raises `OverflowError` and the bare `except`
returns the sentinel.  Otherwise it normalizes into `days` (discarded here),
`seconds ∈ [0, 86400)` and `microseconds ∈ [0, 10^6)`; the latter two are
exactly the Euclidean remainder of the microsecond total modulo one day,
split at 10^6.
-/

/-- Python's `round` (round half to even) on an exact rational. -/
def roundHalfEven (q : ℚ) : ℤ :=
  if q - ⌊q⌋ < 1/2 then ⌊q⌋
  else if 1/2 < q - ⌊q⌋ then ⌊q⌋ + 1
  else if ⌊q⌋ % 2 = 0 then ⌊q⌋ else ⌊q⌋ + 1

/-- Microseconds in one day. -/
def usPerDay : ℤ := 86400000000

/-- Fields `(hours, minutes, seconds, milliseconds)` computed by `format_time`
from a (signed) total number of microseconds: `timedelta` normalization
followed by the two `divmod`s and the millisecond truncation. -/
def ftFields (us : ℤ) : ℕ × ℕ × ℕ × ℕ :=
  let usN : ℕ := (us % usPerDay).toNat
  let tdSeconds : ℕ := usN / 1000000
  let tdMicroseconds : ℕ := usN % 1000000
  let hours : ℕ := tdSeconds / 3600
  let remainder : ℕ := tdSeconds % 3600
  let minutes : ℕ := remainder / 60
  let seconds : ℕ := remainder % 60
  let milliseconds : ℕ := tdMicroseconds / 1000
  (hours, minutes, seconds, milliseconds)

/-- Rendering of the f-string
`f"{hours:02d}:{minutes:02d}:{seconds:02d},{milliseconds:03d}"` from the
microsecond total. -/
def renderUs (us : ℤ) : String :=
  match ftFields us with
  | (hours, minutes, seconds, milliseconds) =>
    py02d hours ++ ":" ++ py02d minutes ++ ":" ++ py02d seconds ++ "," ++
      py03d milliseconds

/-- Smallest microsecond total `timedelta` accepts: `-999999999` days
(`timedelta.min`). -/
def tdMinUs : ℤ := -86399999913600000000

/-- Largest microsecond total `timedelta` accepts: `999999999` days,
`23:59:59.999999` (`timedelta.max`), i.e. `86400·10^15 - 1` microseconds. -/
def tdMaxUs : ℤ := 86399999999999999999

/-- Embedding of `format_time` (app.py lines 35-43).  `none` models an input
on which `float(seconds)` raises (or a non-finite float, on which `timedelta`
raises); the bare `except` then returns the sentinel.  For a finite value,
`timedelta` raises `OverflowError` when the rounded microsecond total lies
outside `[tdMinUs, tdMaxUs]` (normalized days out of ±999999999), which the
same `except` turns into the sentinel; otherwise the timestamp is rendered
from the normalized fields. -/
def format_time : Option ℚ → String
  | none => "00:00:00,000"
  | some q =>
    if roundHalfEven (q * 1000000) < tdMinUs ∨ tdMaxUs < roundHalfEven (q * 1000000) then
      "00:00:00,000"
    else renderUs (roundHalfEven (q * 1000000))

example : renderUs 1234500 = "00:00:01,234" := by decide
example : renderUs (-5000000) = "23:59:55,000" := by decide
example : renderUs 86400000000 = "00:00:00,000" := by decide
example : format_time none = "00:00:00,000" := by decide

/-! ## `generate_srt` (app.py lines 56-76) and its collaborators -/

/-- One recognized speech segment (the dicts built at app.py lines 182-188 and
213-217): `start`/`stop` are the `"start"`/`"end"` float fields, `text` the
recognized text.  A float field is `none` when its value is not a valid float.
-/
structure Segment where
  start : Option ℚ
  stop : Option ℚ
  text : String
deriving DecidableEq, Repr

/-- Embedding of `convert_zh_text` (app.py lines 46-53).  The OpenCC
converters are external capabilities; they are passed in as optional functions
(`none` models a failed `load_converters()`, app.py lines 13-21, in which case
the text passes through unchanged). -/
def convert_zh_text (t2s_conv s2t_conv : Option (String → String))
    (text : String) (target_type : String) : String :=
  match t2s_conv, s2t_conv with
  | some t2s, some s2t =>
    if target_type = "简体中文" then t2s text
    else if target_type = "繁体中文" then s2t text
    else text
  | _, _ => text

/-- Target text of one block: `seg["text"].strip()`, the simplified/
traditional conversion when the target language asks for one, then
`remove_punctuation` (app.py lines 61-67). -/
def targetTextOf (t2s_conv s2t_conv : Option (String → String))
    (target_lang : String) (seg : Segment) : String :=
  let t := pyStrip seg.text
  let t :=
    if target_lang = "简体中文" ∨ target_lang = "繁体中文" then
      convert_zh_text t2s_conv s2t_conv t target_lang
    else t
  remove_punctuation t

/-- Loop body of `generate_srt` for the segment with 1-based index `idx`:
the block string appended to `srt_content` (app.py lines 58-75).  Returns
`none` when `source_texts[idx-1]` raises `IndexError`.  The Python truthiness
test `if use_bilingual and source_texts:` makes an empty (or absent) source
list fall back to the monolingual block. -/
def srtBlock (t2s_conv s2t_conv : Option (String → String))
    (target_lang : String) (source_texts : List String) (use_bilingual : Bool)
    (idx : ℕ) (seg : Segment) : Option String :=
  let start := format_time seg.start
  let stop := format_time seg.stop
  let target_text := targetTextOf t2s_conv s2t_conv target_lang seg
  let head := decRepr idx ++ "\n" ++ start ++ " --> " ++ stop ++ "\n"
  if use_bilingual && !source_texts.isEmpty then
    match source_texts[idx - 1]? with
    | none => none
    | some st =>
      some (head ++ remove_punctuation (pyStrip st) ++ "\n" ++ target_text ++ "\n\n")
  else
    some (head ++ target_text ++ "\n\n")

/-- Tail of the `for idx, seg in enumerate(segments, 1)` loop starting at
index `idx`: the concatenation of the remaining blocks, or `none` if an
`IndexError` is raised (in Python the exception propagates and the partial
`srt_content` is lost). -/
def generate_srtAux (t2s_conv s2t_conv : Option (String → String))
    (target_lang : String) (source_texts : List String) (use_bilingual : Bool) :
    ℕ → List Segment → Option String
  | _, [] => some ""
  | idx, seg :: rest =>
    match srtBlock t2s_conv s2t_conv target_lang source_texts use_bilingual idx seg with
    | none => none
    | some block =>
      match generate_srtAux t2s_conv s2t_conv target_lang source_texts
          use_bilingual (idx + 1) rest with
      | none => none
      | some tail => some (block ++ tail)

/-- Embedding of `generate_srt` (app.py lines 56-76). -/
def generate_srt (t2s_conv s2t_conv : Option (String → String))
    (segments : List Segment) (target_lang : String)
    (source_texts : List String) (use_bilingual : Bool) : Option String :=
  generate_srtAux t2s_conv s2t_conv target_lang source_texts use_bilingual 1 segments

example :
    generate_srt none none [⟨none, none, "hi"⟩] "英文" [] false =
      some "1\n00:00:00,000 --> 00:00:00,000\nhi\n\n" := by decide

example :
    generate_srt none none [⟨none, none, "hi"⟩, ⟨none, none, "yo"⟩] "英文" ["a"] true =
      none := by decide

/-! ## Fragments of `main` (app.py) -/

/-- Embedding of the per-row time-edit fallback (app.py lines 205-211):

  `try: start_f = float(start_val); end_f = float(end_val)`
  `except: start_f, end_f = seg["start"], seg["end"]`

Both conversions live in one `try` block, so if either edited field fails to
parse (modelled by `none`) the `except` arm re-assigns *both* fields from the
model-produced segment. -/
def editedTimes (start_val end_val : Option ℚ) (seg_start seg_end : ℚ) : ℚ × ℚ :=
  match start_val, end_val with
  | some s, some e => (s, e)
  | _, _ => (seg_start, seg_end)

/-- Observable resource events of the upload branch of `main`
(app.py lines 136-179). -/
inductive MainEvent where
  | writeTemp
  | unlinkTemp
deriving DecidableEq, Repr

/-- Straight-line model of the upload branch of `main` (app.py lines 136-179):
the temporary audio file is written (`tempfile.NamedTemporaryFile(delete=False)`
plus `temp_file.write`), then `model.transcribe(...)` runs; `os.unlink` is the
next statement after the transcription call, so it executes only when
`transcribe` returns normally — an exception aborts the rest of the block.
The argument is the outcome of the external `model.transcribe` call. -/
def mainTempEvents (transcribeResult : Except String (List Segment)) :
    List MainEvent :=
  [MainEvent.writeTemp] ++
    (match transcribeResult with
     | Except.ok _ => [MainEvent.unlinkTemp]
     | Except.error _ => [])

/-- Whether the temporary file still exists after a list of resource events. -/
def tempFileExists (events : List MainEvent) : Bool :=
  events.foldl
    (fun _st e =>
      match e with
      | MainEvent.writeTemp => true
      | MainEvent.unlinkTemp => false)
    false

/-! ## Specification-side observers

These definitions render the vocabulary of the claims (lexicographic string
order, the `\d{2}:\d{2}:\d{2},\d{3}` pattern, splitting a document into
lines); they are stated from the claims, not from the source, and the
theorems relate them to the embedded program. -/

/-- Lexicographic order test on character lists, by code point. -/
def lexLeB : List Char → List Char → Bool
  | [], _ => true
  | _ :: _, [] => false
  | a :: as, b :: bs =>
    if a.toNat < b.toNat then true
    else if b.toNat < a.toNat then false
    else lexLeB as bs

/-- Lexicographic order test on strings, by code point. -/
def strLexLe (s t : String) : Bool := lexLeB s.data t.data

/-- Test for the timestamp pattern `\d{2}:\d{2}:\d{2},\d{3}` (exactly twelve
characters). -/
def isSrtTimestamp (s : String) : Bool :=
  match s.data with
  | [a, b, c, d, e, f, g, h, i, j, k, l] =>
    a.isDigit && b.isDigit && c = ':' && d.isDigit && e.isDigit && f = ':' &&
      g.isDigit && h.isDigit && i = ',' && j.isDigit && k.isDigit && l.isDigit
  | _ => false

/-- Split a character list at every occurrence of `sep` (the separator is
dropped; `n` separators yield `n + 1` chunks). -/
def splitOnChar (sep : Char) : List Char → List (List Char)
  | [] => [[]]
  | c :: rest =>
    match splitOnChar sep rest with
    | [] => [[]]
    | chunk :: chunks =>
      if c = sep then [] :: chunk :: chunks else (c :: chunk) :: chunks

/-- The lines of a document: chunks between newline characters. -/
def docLines (s : String) : List String :=
  (splitOnChar '\n' s.data).map fun l => (⟨l⟩ : String)

example : docLines "1\nab\n\n" = ["1", "ab", "", ""] := by decide

/-- Expected lines of the SRT block with 1-based index `idx` for segment
`seg`: the index line, the time-range line, one or two text lines, and the
empty line produced by the final `\n\n`. -/
def blockLines (t2s_conv s2t_conv : Option (String → String))
    (target_lang : String) (source_texts : List String) (use_bilingual : Bool)
    (idx : ℕ) (seg : Segment) : List String :=
  let timeRange := format_time seg.start ++ " --> " ++ format_time seg.stop
  let target_text := targetTextOf t2s_conv s2t_conv target_lang seg
  if use_bilingual && !source_texts.isEmpty then
    [decRepr idx, timeRange,
      remove_punctuation (pyStrip (source_texts.getD (idx - 1) "")), target_text, ""]
  else
    [decRepr idx, timeRange, target_text, ""]

/-- Expected lines of the whole document from index `idx` on (without the
final chunk after the last newline). -/
def expectedLines (t2s_conv s2t_conv : Option (String → String))
    (target_lang : String) (source_texts : List String) (use_bilingual : Bool) :
    ℕ → List Segment → List String
  | _, [] => []
  | idx, seg :: rest =>
    blockLines t2s_conv s2t_conv target_lang source_texts use_bilingual idx seg ++
      expectedLines t2s_conv s2t_conv target_lang source_texts use_bilingual
        (idx + 1) rest

/-- Number of lines contributed by one block: five in bilingual mode with a
non-empty source list, otherwise four. -/
def srtStride (source_texts : List String) (use_bilingual : Bool) : ℕ :=
  if use_bilingual && !source_texts.isEmpty then 5 else 4

/-! ## Helper lemmas: characters and whitespace -/

theorem digitChar_isDigit : ∀ d : ℕ, d < 10 → (Nat.digitChar d).isDigit = true := by
  decide

theorem digitChar_ne_newline : ∀ d : ℕ, d < 10 → Nat.digitChar d ≠ '\n' := by
  decide

theorem digitChar_toNat_lt : ∀ b : ℕ, b < 10 → ∀ a : ℕ, a < b →
    (Nat.digitChar a).toNat < (Nat.digitChar b).toNat := by
  decide

theorem mem_wsCollapseAux {c : Char} :
    ∀ (b : Bool) (l : List Char), c ∈ wsCollapseAux b l →
      c = ' ' ∨ (pyIsSpace c = false ∧ c ∈ l) := by
  intro b l
  induction l generalizing b with
  | nil => intro h; cases h
  | cons a rest ih =>
    intro h
    by_cases ha : pyIsSpace a
    · simp only [wsCollapseAux, ha, if_true] at h
      rcases List.mem_append.mp h with h1 | h1
      · left
        cases b <;> simp_all
      · rcases ih true h1 with h2 | h2
        · exact Or.inl h2
        · exact Or.inr ⟨h2.1, List.mem_cons_of_mem _ h2.2⟩
    · simp only [wsCollapseAux, ha, if_false, Bool.false_eq_true, List.mem_cons] at h
      rcases h with rfl | h1
      · by_cases hc : c = ' '
        · exact Or.inl hc
        · exact Or.inr ⟨by simpa using ha, List.mem_cons_self _ _⟩
      · rcases ih false h1 with h2 | h2
        · exact Or.inl h2
        · exact Or.inr ⟨h2.1, List.mem_cons_of_mem _ h2.2⟩

theorem newline_not_mem_wsCollapse (l : List Char) : '\n' ∉ wsCollapse l := by
  intro h
  rcases mem_wsCollapseAux false l h with h1 | h1
  · cases h1
  · have : pyIsSpace '\n' = true := by decide
    rw [h1.1] at this
    cases this

theorem mem_pyStrip {c : Char} {s : String} (h : c ∈ (pyStrip s).data) : c ∈ s.data := by
  unfold pyStrip at h
  simp only [List.mem_reverse] at h
  have h2 := (List.dropWhile_sublist pyIsSpace).mem h
  rw [List.mem_reverse] at h2
  exact (List.dropWhile_sublist pyIsSpace).mem h2

theorem newline_not_mem_remove_punctuation (s : String) :
    '\n' ∉ (remove_punctuation s).data := by
  intro h
  exact newline_not_mem_wsCollapse _ (mem_pyStrip h)

/-! ## Helper lemmas: decimal digits -/

theorem mem_decDigits {c : Char} :
    ∀ (fuel n : ℕ), c ∈ decDigits fuel n → ∃ d : ℕ, d < 10 ∧ c = Nat.digitChar d := by
  intro fuel
  induction fuel with
  | zero => intro n h; cases h
  | succ f ih =>
    intro n h
    by_cases h10 : n < 10
    · simp only [decDigits, h10, if_true, List.mem_singleton] at h
      exact ⟨n, h10, h⟩
    · simp only [decDigits, h10, if_false, Bool.false_eq_true, List.mem_append,
        List.mem_singleton] at h
      rcases h with h1 | h1
      · exact ih _ h1
      · exact ⟨n % 10, by omega, h1⟩

theorem newline_not_mem_decRepr (n : ℕ) : '\n' ∉ (decRepr n).data := by
  intro h
  obtain ⟨d, hd, hc⟩ := mem_decDigits _ _ h
  exact digitChar_ne_newline d hd hc.symm

theorem decDigits_of_lt (fuel n : ℕ) (hf : 0 < fuel) (h : n < 10) :
    decDigits fuel n = [Nat.digitChar n] := by
  cases fuel with
  | zero => omega
  | succ f => simp [decDigits, h]

theorem decDigits_of_ge (fuel n : ℕ) (hf : 0 < fuel) (h : 10 ≤ n) :
    decDigits fuel n = decDigits (fuel - 1) (n / 10) ++ [Nat.digitChar (n % 10)] := by
  cases fuel with
  | zero => omega
  | succ f => simp [decDigits, show ¬ n < 10 by omega]

theorem decRepr_data_one (n : ℕ) (h : n < 10) :
    (decRepr n).data = [Nat.digitChar n] := by
  show decDigits (n + 1) n = _
  exact decDigits_of_lt _ _ (by omega) h

theorem decRepr_data_two (n : ℕ) (h1 : 10 ≤ n) (h2 : n < 100) :
    (decRepr n).data = [Nat.digitChar (n / 10), Nat.digitChar (n % 10)] := by
  show decDigits (n + 1) n = _
  rw [decDigits_of_ge (n + 1) n (by omega) h1]
  rw [show n + 1 - 1 = n from rfl]
  rw [decDigits_of_lt n (n / 10) (by omega) (by omega)]
  rfl

theorem decRepr_data_three (n : ℕ) (h1 : 100 ≤ n) (h2 : n < 1000) :
    (decRepr n).data =
      [Nat.digitChar (n / 100), Nat.digitChar (n / 10 % 10), Nat.digitChar (n % 10)] := by
  show decDigits (n + 1) n = _
  rw [decDigits_of_ge (n + 1) n (by omega) (by omega)]
  rw [show n + 1 - 1 = n from rfl]
  rw [decDigits_of_ge n (n / 10) (by omega) (by omega)]
  rw [decDigits_of_lt (n - 1) (n / 10 / 10) (by omega) (by omega)]
  rw [show n / 10 / 10 = n / 100 by omega]
  rfl

theorem py02d_data (n : ℕ) (h : n < 100) :
    (py02d n).data = [Nat.digitChar (n / 10), Nat.digitChar (n % 10)] := by
  by_cases h10 : n < 10
  · unfold py02d
    rw [if_pos h10, String.data_append, decRepr_data_one n h10]
    rw [show n / 10 = 0 by omega, show n % 10 = n by omega]
    rfl
  · unfold py02d
    rw [if_neg h10]
    exact decRepr_data_two n (by omega) h

theorem py03d_data (n : ℕ) (h : n < 1000) :
    (py03d n).data =
      [Nat.digitChar (n / 100), Nat.digitChar (n / 10 % 10), Nat.digitChar (n % 10)] := by
  by_cases h10 : n < 10
  · unfold py03d
    rw [if_pos h10, String.data_append, decRepr_data_one n h10]
    rw [show n / 100 = 0 by omega, show n / 10 % 10 = 0 by omega, show n % 10 = n by omega]
    rfl
  · by_cases h100 : n < 100
    · unfold py03d
      rw [if_neg h10, if_pos h100, String.data_append, decRepr_data_two n (by omega) h100]
      rw [show n / 100 = 0 by omega, show n / 10 % 10 = n / 10 by omega]
      rfl
    · unfold py03d
      rw [if_neg h10, if_neg h100]
      exact decRepr_data_three n (by omega) h

/-! ## Helper lemmas: lexicographic comparison of digit strings -/

theorem lexLeB_cons_self (c : Char) (as bs : List Char) :
    lexLeB (c :: as) (c :: bs) = lexLeB as bs := by
  simp [lexLeB]

theorem lexLeB_head_lt {a b : Char} (h : a.toNat < b.toNat) (as bs : List Char) :
    lexLeB (a :: as) (b :: bs) = true := by
  simp [lexLeB, h]

theorem lexLeB_digits2 {a b : ℕ} {as bs : List Char} (hab : a ≤ b) (hb : b < 100)
    (hrec : a = b → lexLeB as bs = true) :
    lexLeB (Nat.digitChar (a / 10) :: Nat.digitChar (a % 10) :: as)
      (Nat.digitChar (b / 10) :: Nat.digitChar (b % 10) :: bs) = true := by
  rcases Nat.lt_or_ge a b with hlt | hge
  · rcases Nat.lt_or_ge (a / 10) (b / 10) with h1 | h1
    · exact lexLeB_head_lt (digitChar_toNat_lt _ (by omega) _ h1) _ _
    · have h2 : a / 10 = b / 10 := by omega
      rw [h2, lexLeB_cons_self]
      exact lexLeB_head_lt (digitChar_toNat_lt _ (by omega) _ (by omega)) _ _
  · have heq : a = b := by omega
    subst heq
    rw [lexLeB_cons_self, lexLeB_cons_self]
    exact hrec rfl

theorem lexLeB_digits3 {a b : ℕ} {as bs : List Char} (hab : a ≤ b) (hb : b < 1000)
    (hrec : a = b → lexLeB as bs = true) :
    lexLeB (Nat.digitChar (a / 100) :: Nat.digitChar (a / 10 % 10) ::
        Nat.digitChar (a % 10) :: as)
      (Nat.digitChar (b / 100) :: Nat.digitChar (b / 10 % 10) ::
        Nat.digitChar (b % 10) :: bs) = true := by
  rcases Nat.lt_or_ge a b with hlt | hge
  · rcases Nat.lt_or_ge (a / 100) (b / 100) with h1 | h1
    · exact lexLeB_head_lt (digitChar_toNat_lt _ (by omega) _ h1) _ _
    · have h2 : a / 100 = b / 100 := by omega
      rw [h2, lexLeB_cons_self]
      rcases Nat.lt_or_ge (a / 10 % 10) (b / 10 % 10) with h3 | h3
      · exact lexLeB_head_lt (digitChar_toNat_lt _ (by omega) _ h3) _ _
      · have h4 : a / 10 % 10 = b / 10 % 10 := by omega
        rw [h4, lexLeB_cons_self]
        exact lexLeB_head_lt (digitChar_toNat_lt _ (by omega) _ (by omega)) _ _
  · have heq : a = b := by omega
    subst heq
    rw [lexLeB_cons_self, lexLeB_cons_self, lexLeB_cons_self]
    exact hrec rfl

/-! ## Helper lemmas: structure of the rendered timestamp -/

theorem renderUs_eq (us : ℤ) :
    renderUs us =
      py02d ((us % usPerDay).toNat / 1000000 / 3600) ++ ":" ++
      py02d ((us % usPerDay).toNat / 1000000 % 3600 / 60) ++ ":" ++
      py02d ((us % usPerDay).toNat / 1000000 % 3600 % 60) ++ "," ++
      py03d ((us % usPerDay).toNat % 1000000 / 1000) := rfl

theorem renderNat_data (A : ℕ) (hA : A < 86400000000) :
    (py02d (A / 1000000 / 3600) ++ ":" ++ py02d (A / 1000000 % 3600 / 60) ++ ":" ++
        py02d (A / 1000000 % 3600 % 60) ++ "," ++ py03d (A % 1000000 / 1000)).data =
      [Nat.digitChar (A / 1000000 / 3600 / 10), Nat.digitChar (A / 1000000 / 3600 % 10),
        ':',
        Nat.digitChar (A / 1000000 % 3600 / 60 / 10),
        Nat.digitChar (A / 1000000 % 3600 / 60 % 10), ':',
        Nat.digitChar (A / 1000000 % 3600 % 60 / 10),
        Nat.digitChar (A / 1000000 % 3600 % 60 % 10), ',',
        Nat.digitChar (A % 1000000 / 1000 / 100),
        Nat.digitChar (A % 1000000 / 1000 / 10 % 10),
        Nat.digitChar (A % 1000000 / 1000 % 10)] := by
  simp only [String.data_append]
  rw [py02d_data (A / 1000000 / 3600) (by omega),
    py02d_data (A / 1000000 % 3600 / 60) (by omega),
    py02d_data (A / 1000000 % 3600 % 60) (by omega),
    py03d_data (A % 1000000 / 1000) (by omega)]
  rfl

theorem renderUs_usN_lt (us : ℤ) : (us % usPerDay).toNat < 86400000000 := by
  have h : usPerDay = 86400000000 := rfl
  rw [h]
  omega

theorem renderNat_mono (A B : ℕ) (hAB : A ≤ B) (hB : B < 86400000000) :
    lexLeB
      (py02d (A / 1000000 / 3600) ++ ":" ++ py02d (A / 1000000 % 3600 / 60) ++ ":" ++
        py02d (A / 1000000 % 3600 % 60) ++ "," ++ py03d (A % 1000000 / 1000)).data
      (py02d (B / 1000000 / 3600) ++ ":" ++ py02d (B / 1000000 % 3600 / 60) ++ ":" ++
        py02d (B / 1000000 % 3600 % 60) ++ "," ++ py03d (B % 1000000 / 1000)).data =
      true := by
  rw [renderNat_data A (by omega), renderNat_data B hB]
  apply lexLeB_digits2 (by omega) (by omega)
  intro hh
  rw [lexLeB_cons_self]
  apply lexLeB_digits2 (by omega) (by omega)
  intro hm
  rw [lexLeB_cons_self]
  apply lexLeB_digits2 (by omega) (by omega)
  intro hs
  rw [lexLeB_cons_self]
  apply lexLeB_digits3 (by omega) (by omega)
  intro _
  rfl

theorem renderUs_mono {x y : ℤ} (h0 : 0 ≤ x) (hxy : x ≤ y) (hy : y < 86400000000) :
    lexLeB (renderUs x).data (renderUs y).data = true := by
  rw [renderUs_eq, renderUs_eq]
  have hu : usPerDay = 86400000000 := rfl
  have hx : (x % usPerDay).toNat = x.toNat := by rw [hu]; omega
  have hy2 : (y % usPerDay).toNat = y.toNat := by rw [hu]; omega
  rw [hx, hy2]
  exact renderNat_mono x.toNat y.toNat (by omega) (by omega)

theorem isSrtTimestamp_of_digits {s : String} {d1 d2 d3 d4 d5 d6 d7 d8 d9 : ℕ}
    (hdata : s.data =
      [Nat.digitChar d1, Nat.digitChar d2, ':', Nat.digitChar d3, Nat.digitChar d4,
        ':', Nat.digitChar d5, Nat.digitChar d6, ',', Nat.digitChar d7,
        Nat.digitChar d8, Nat.digitChar d9])
    (h1 : d1 < 10) (h2 : d2 < 10) (h3 : d3 < 10) (h4 : d4 < 10) (h5 : d5 < 10)
    (h6 : d6 < 10) (h7 : d7 < 10) (h8 : d8 < 10) (h9 : d9 < 10) :
    isSrtTimestamp s = true := by
  unfold isSrtTimestamp
  rw [hdata]
  simp [digitChar_isDigit d1 h1, digitChar_isDigit d2 h2, digitChar_isDigit d3 h3,
    digitChar_isDigit d4 h4, digitChar_isDigit d5 h5, digitChar_isDigit d6 h6,
    digitChar_isDigit d7 h7, digitChar_isDigit d8 h8, digitChar_isDigit d9 h9]

theorem isSrtTimestamp_renderUs (us : ℤ) : isSrtTimestamp (renderUs us) = true := by
  have hb := renderUs_usN_lt us
  have hdata := renderNat_data _ hb
  rw [renderUs_eq]
  exact isSrtTimestamp_of_digits hdata (by omega) (by omega) (by omega) (by omega)
    (by omega) (by omega) (by omega) (by omega) (by omega)

theorem renderUs_length (us : ℤ) : (renderUs us).length = 12 := by
  have h : (renderUs us).length = (renderUs us).data.length := rfl
  rw [h, renderUs_eq, renderNat_data _ (renderUs_usN_lt us)]
  rfl

theorem newline_not_mem_renderUs (us : ℤ) : '\n' ∉ (renderUs us).data := by
  have hb := renderUs_usN_lt us
  rw [renderUs_eq, renderNat_data _ hb]
  intro h
  simp only [List.mem_cons, List.not_mem_nil, or_false] at h
  rcases h with h | h | h | h | h | h | h | h | h | h | h | h
  · exact digitChar_ne_newline _ (by omega) h.symm
  · exact digitChar_ne_newline _ (by omega) h.symm
  · exact absurd h (by decide)
  · exact digitChar_ne_newline _ (by omega) h.symm
  · exact digitChar_ne_newline _ (by omega) h.symm
  · exact absurd h (by decide)
  · exact digitChar_ne_newline _ (by omega) h.symm
  · exact digitChar_ne_newline _ (by omega) h.symm
  · exact absurd h (by decide)
  · exact digitChar_ne_newline _ (by omega) h.symm
  · exact digitChar_ne_newline _ (by omega) h.symm
  · exact digitChar_ne_newline _ (by omega) h.symm

theorem newline_not_mem_format_time (x : Option ℚ) :
    '\n' ∉ (format_time x).data := by
  cases x with
  | none => decide
  | some q =>
    simp only [format_time]
    split_ifs
    · decide
    · exact newline_not_mem_renderUs _

/-! ## Helper lemmas: round half to even -/

theorem le_roundHalfEven (q : ℚ) : ⌊q⌋ ≤ roundHalfEven q := by
  unfold roundHalfEven
  split_ifs <;> omega

theorem roundHalfEven_le_floor_add_one (q : ℚ) : roundHalfEven q ≤ ⌊q⌋ + 1 := by
  unfold roundHalfEven
  split_ifs <;> omega

theorem roundHalfEven_intCast (n : ℤ) : roundHalfEven (n : ℚ) = n := by
  unfold roundHalfEven
  rw [Int.floor_intCast]
  rw [if_pos]
  norm_num

theorem roundHalfEven_nonneg {q : ℚ} (h : 0 ≤ q) : 0 ≤ roundHalfEven q := by
  have h2 : 0 ≤ ⌊q⌋ := Int.floor_nonneg.mpr h
  have h3 := le_roundHalfEven q
  omega

theorem roundHalfEven_mono {p q : ℚ} (h : p ≤ q) :
    roundHalfEven p ≤ roundHalfEven q := by
  have hf : ⌊p⌋ ≤ ⌊q⌋ := Int.floor_mono h
  rcases lt_or_eq_of_le hf with hlt | heq
  · have h1 := roundHalfEven_le_floor_add_one p
    have h2 := le_roundHalfEven q
    omega
  · unfold roundHalfEven
    rw [← heq]
    split_ifs with a1 a2 a3 a4 a5 a6 a7 <;> first | omega | linarith

theorem roundHalfEven_le_of_le_intCast {q : ℚ} {n : ℤ} (h : q ≤ (n : ℚ)) :
    roundHalfEven q ≤ n := by
  have hf : ⌊q⌋ ≤ n := by
    have := Int.floor_mono h
    rwa [Int.floor_intCast] at this
  rcases lt_or_eq_of_le hf with hlt | heq
  · have := roundHalfEven_le_floor_add_one q
    omega
  · have hq : q = (n : ℚ) := by
      have h1 : (⌊q⌋ : ℚ) ≤ q := Int.floor_le q
      rw [heq] at h1
      linarith
    rw [hq, roundHalfEven_intCast]

theorem roundHalfEven_add_int_even {q : ℚ} {n : ℤ} (hn : n % 2 = 0) :
    roundHalfEven (q + n) = roundHalfEven q + n := by
  unfold roundHalfEven
  rw [Int.floor_add_int]
  have hr : ∀ r : ℚ, q + (n : ℚ) - ((⌊q⌋ + n : ℤ) : ℚ) = q - ((⌊q⌋ : ℤ) : ℚ) := by
    intro r
    push_cast
    ring
  rw [hr 0]
  have hpar : (⌊q⌋ + n) % 2 = ⌊q⌋ % 2 := by omega
  rw [hpar]
  split_ifs <;> omega

theorem roundHalfEven_eq_down {q : ℚ} {n : ℤ} (h1 : (n : ℚ) ≤ q)
    (h2 : q - (n : ℚ) < 1/2) : roundHalfEven q = n := by
  have hf : ⌊q⌋ = n := by
    rw [Int.floor_eq_iff]
    refine ⟨h1, ?_⟩
    linarith
  unfold roundHalfEven
  rw [hf, if_pos h2]

theorem roundHalfEven_eq_up {q : ℚ} {n : ℤ} (h1 : 1/2 < q - (n : ℚ))
    (h2 : q < (n : ℚ) + 1) : roundHalfEven q = n + 1 := by
  have hf : ⌊q⌋ = n := by
    rw [Int.floor_eq_iff]
    constructor
    · linarith
    · linarith
  unfold roundHalfEven
  rw [hf]
  rw [if_neg (by linarith), if_pos h1]

/-! ## Helper lemmas: evaluating `format_time` -/

theorem format_time_of_in_range (q : ℚ)
    (h1 : tdMinUs ≤ roundHalfEven (q * 1000000))
    (h2 : roundHalfEven (q * 1000000) ≤ tdMaxUs) :
    format_time (some q) = renderUs (roundHalfEven (q * 1000000)) := by
  simp only [format_time]
  rw [if_neg (by omega)]

theorem roundHalfEven_eval_int (q : ℚ) (n : ℤ) (h : q * 1000000 = (n : ℚ)) :
    roundHalfEven (q * 1000000) = n := by
  rw [h, roundHalfEven_intCast]

theorem format_time_eval_int (q : ℚ) (n : ℤ) (h : q * 1000000 = (n : ℚ))
    (h1 : tdMinUs ≤ n) (h2 : n ≤ tdMaxUs) :
    format_time (some q) = renderUs n := by
  have hr := roundHalfEven_eval_int q n h
  simp only [format_time, hr]
  rw [if_neg (by omega)]

theorem floor_natCast_div (a b : ℕ) (hb : 0 < b) :
    ⌊(a : ℚ) / (b : ℚ)⌋ = ((a / b : ℕ) : ℤ) := by
  rw [Int.floor_eq_iff]
  constructor
  · rw [le_div_iff₀ (by exact_mod_cast hb : (0:ℚ) < (b:ℚ))]
    exact_mod_cast Nat.div_mul_le_self a b
  · rw [div_lt_iff₀ (by exact_mod_cast hb : (0:ℚ) < (b:ℚ))]
    have h1 : a < (a / b + 1) * b := by
      have h2 := Nat.div_add_mod a b
      have h3 : a % b < b := Nat.mod_lt a hb
      calc a = b * (a / b) + a % b := h2.symm
        _ < b * (a / b) + b := by omega
        _ = (a / b + 1) * b := by ring
    exact_mod_cast h1

/-! ## Claim C2 -/

/-- Claim C2, amended: `format_time` returns the sentinel `00:00:00,000` on
input that cannot be parsed as a (finite, in-range) float, but a *negative*
number is accepted by `timedelta` and wrapped modulo 24 hours instead of
producing the sentinel: `format_time(-5)` is `23:59:55,000`. -/
theorem c2_format_time_error_amended :
    format_time none = "00:00:00,000" ∧
      format_time (some (-5)) = "23:59:55,000" := by
  refine ⟨rfl, ?_⟩
  rw [format_time_eval_int (-5) (-5000000) (by norm_num) (by decide) (by decide)]
  decide

/-- Counterexample to claim C2 as stated: `-5` cannot be interpreted as a
non-negative number, yet `format_time` does not return the sentinel. -/
theorem c2_counterexample :
    format_time (some (-5)) ≠ "00:00:00,000" := by
  rw [format_time_eval_int (-5) (-5000000) (by norm_num) (by decide) (by decide)]
  decide

/-! ## Claim C3 -/

/-- Claim C3, amended: `format_time` is monotonic (in the code-point
lexicographic order on the output strings) on nonnegative inputs up to one
microsecond below 24 hours; beyond that the day wrap-around of
`timedelta.seconds` breaks monotonicity. -/
theorem c3_format_time_mono_amended (q₁ q₂ : ℚ) (h0 : 0 ≤ q₁) (h12 : q₁ ≤ q₂)
    (hday : q₂ * 1000000 ≤ 86399999999) :
    strLexLe (format_time (some q₁)) (format_time (some q₂)) = true := by
  have hb : roundHalfEven (q₂ * 1000000) ≤ 86399999999 := by
    apply roundHalfEven_le_of_le_intCast
    exact_mod_cast hday
  have h01 : 0 ≤ roundHalfEven (q₁ * 1000000) :=
    roundHalfEven_nonneg (mul_nonneg h0 (by norm_num))
  have hmono : roundHalfEven (q₁ * 1000000) ≤ roundHalfEven (q₂ * 1000000) :=
    roundHalfEven_mono (mul_le_mul_of_nonneg_right h12 (by norm_num))
  have hmin : tdMinUs ≤ (0 : ℤ) := by decide
  have hmax : (86399999999 : ℤ) ≤ tdMaxUs := by decide
  rw [strLexLe, format_time_of_in_range q₁ (by omega) (by omega),
    format_time_of_in_range q₂ (by omega) (by omega)]
  exact renderUs_mono h01 hmono (by omega)

/-- Witness for C3 (amended): concrete inputs 1 ≤ 2 within one day. -/
theorem c3_witness :
    (0:ℚ) ≤ 1 ∧ (1:ℚ) ≤ 2 ∧ (2:ℚ) * 1000000 ≤ 86399999999 ∧
      strLexLe (format_time (some 1)) (format_time (some 2)) = true :=
  ⟨by norm_num, by norm_num, by norm_num,
    c3_format_time_mono_amended 1 2 (by norm_num) (by norm_num) (by norm_num)⟩

/-- Counterexample to claim C3 as stated: `1 ≤ 86400` are both non-negative,
but `format_time(86400)` wraps to `00:00:00,000`, which is lexicographically
smaller than `format_time(1) = 00:00:01,000`. -/
theorem c3_counterexample :
    (0:ℚ) ≤ 1 ∧ (1:ℚ) ≤ 86400 ∧
      strLexLe (format_time (some 1)) (format_time (some 86400)) = false := by
  refine ⟨by norm_num, by norm_num, ?_⟩
  rw [strLexLe,
    format_time_eval_int 1 1000000 (by norm_num) (by decide) (by decide),
    format_time_eval_int 86400 86400000000 (by norm_num) (by decide) (by decide)]
  decide

/-! ## Claim C5 -/

/-- Claim C5: on every non-negative numeric input, `format_time` produces a
string of exactly twelve characters matching the pattern
`\d\d:\d\d:\d\d,\d\d\d`. -/
theorem c5_format_time_shape (q : ℚ) (_h : 0 ≤ q) :
    isSrtTimestamp (format_time (some q)) = true ∧
      (format_time (some q)).length = 12 := by
  simp only [format_time]
  split_ifs
  · exact ⟨by decide, by decide⟩
  · exact ⟨isSrtTimestamp_renderUs _, renderUs_length _⟩

/-- Witness for C5 at the concrete input 0. -/
theorem c5_witness :
    (0:ℚ) ≤ 0 ∧ isSrtTimestamp (format_time (some 0)) = true ∧
      (format_time (some 0)).length = 12 :=
  ⟨le_refl 0, c5_format_time_shape 0 (le_refl 0)⟩

/-! ## Claim C10 -/

/-- Claim C10, amended: `format_time` discards whole days — adding whole days
(86400-second periods) to a non-negative input leaves the output unchanged —
as long as the shifted input stays within `timedelta`'s representable range
(microsecond total at most `tdMaxUs = 86400·10^15 - 1`); beyond that range
`timedelta` raises `OverflowError` and `format_time` returns the sentinel
instead. -/
theorem c10_format_time_day_periodic (q : ℚ) (h0 : 0 ≤ q) (k : ℕ)
    (hk : (q + (k : ℚ) * 86400) * 1000000 ≤ 86399999999999999999) :
    format_time (some (q + (k : ℚ) * 86400)) = format_time (some q) := by
  have harg : (q + (k : ℚ) * 86400) * 1000000 =
      q * 1000000 + (((k : ℤ) * 86400000000 : ℤ) : ℚ) := by
    push_cast
    ring
  have hshift : roundHalfEven ((q + (k : ℚ) * 86400) * 1000000) =
      roundHalfEven (q * 1000000) + (k : ℤ) * 86400000000 := by
    rw [harg, roundHalfEven_add_int_even (by omega)]
  have h0' : 0 ≤ roundHalfEven (q * 1000000) :=
    roundHalfEven_nonneg (mul_nonneg h0 (by norm_num))
  have hmaxsh : roundHalfEven ((q + (k : ℚ) * 86400) * 1000000) ≤ tdMaxUs := by
    have h1 := roundHalfEven_le_of_le_intCast
      (show (q + (k : ℚ) * 86400) * 1000000 ≤ ((86399999999999999999 : ℤ) : ℚ) by
        exact_mod_cast hk)
    have h2 : (86399999999999999999 : ℤ) = tdMaxUs := rfl
    omega
  have hknn : 0 ≤ (k : ℤ) * 86400000000 := by positivity
  have hmin : tdMinUs ≤ (0 : ℤ) := by decide
  have hminsh : tdMinUs ≤ roundHalfEven ((q + (k : ℚ) * 86400) * 1000000) := by
    rw [hshift]
    omega
  have hmax : roundHalfEven (q * 1000000) ≤ tdMaxUs := by
    rw [hshift] at hmaxsh
    omega
  rw [format_time_of_in_range _ hminsh hmaxsh,
    format_time_of_in_range _ (by omega) hmax, hshift]
  rw [renderUs_eq, renderUs_eq]
  have hmod : (roundHalfEven (q * 1000000) + (k : ℤ) * 86400000000) % usPerDay =
      roundHalfEven (q * 1000000) % usPerDay := by
    rw [show usPerDay = (86400000000 : ℤ) from rfl]
    omega
  rw [hmod]

/-- Counterexample to claim C10 as stated: at `t = 1`, `k = 10^9` the shifted
input `86400000000001` seconds exceeds `timedelta`'s maximum of `999999999`
days, the constructor raises `OverflowError`, and the bare `except` returns
the sentinel `00:00:00,000`, which differs from
`format_time(1) = 00:00:01,000`. -/
theorem c10_counterexample :
    (0:ℚ) ≤ 1 ∧
      format_time (some ((1:ℚ) + ((1000000000 : ℕ) : ℚ) * 86400)) =
        "00:00:00,000" ∧
      format_time (some 1) = "00:00:01,000" ∧
      ("00:00:00,000" : String) ≠ "00:00:01,000" := by
  refine ⟨by norm_num, ?_, ?_, by decide⟩
  · have harg : ((1:ℚ) + ((1000000000 : ℕ) : ℚ) * 86400) * 1000000 =
        ((86400000000001000000 : ℤ) : ℚ) := by
      norm_num
    rw [show format_time (some ((1:ℚ) + ((1000000000 : ℕ) : ℚ) * 86400)) =
        if roundHalfEven (((1:ℚ) + ((1000000000 : ℕ) : ℚ) * 86400) * 1000000) <
            tdMinUs ∨
          tdMaxUs <
            roundHalfEven (((1:ℚ) + ((1000000000 : ℕ) : ℚ) * 86400) * 1000000)
        then "00:00:00,000"
        else renderUs
          (roundHalfEven (((1:ℚ) + ((1000000000 : ℕ) : ℚ) * 86400) * 1000000))
      from rfl]
    rw [roundHalfEven_eval_int _ 86400000000001000000 harg]
    rw [if_pos (Or.inr (by decide))]
  · rw [format_time_eval_int 1 1000000 (by norm_num) (by decide) (by decide)]
    decide

/-- Witness for C10 (amended): one whole day added to 0 stays in range and
gives the same output, namely the all-zero timestamp. -/
theorem c10_witness :
    (0:ℚ) ≤ 0 ∧
      ((0:ℚ) + ((1:ℕ) : ℚ) * 86400) * 1000000 ≤ 86399999999999999999 ∧
      format_time (some ((0:ℚ) + ((1:ℕ) : ℚ) * 86400)) = format_time (some 0) ∧
      format_time (some 0) = "00:00:00,000" := by
  refine ⟨le_refl 0, by norm_num,
    c10_format_time_day_periodic 0 (le_refl 0) 1 (by norm_num), ?_⟩
  rw [format_time_eval_int 0 0 (by norm_num) (by decide) (by decide)]
  decide

/-! ## Claim C4 -/

theorem floor_natCast_div_million (a : ℕ) :
    ⌊(a : ℚ) / 1000000⌋ = ((a / 1000000 : ℕ) : ℤ) := by
  have h := floor_natCast_div a 1000000 (by norm_num)
  have hc : ((1000000 : ℕ) : ℚ) = (1000000 : ℚ) := by norm_num
  rw [hc] at h
  exact h

theorem floor_natCast_div_thousand (a : ℕ) :
    ⌊(a : ℚ) / 1000⌋ = ((a / 1000 : ℕ) : ℤ) := by
  have h := floor_natCast_div a 1000 (by norm_num)
  have hc : ((1000 : ℕ) : ℚ) = (1000 : ℚ) := by norm_num
  rw [hc] at h
  exact h

/-- Claim C4, amended: `timedelta` first rounds the input to a whole number of
microseconds (round half to even) and `format_time` then *truncates*
microseconds to milliseconds.  Hence for every input that is a whole number
`m` of microseconds *within `timedelta`'s representable range*
(`m ≤ tdMaxUs`; beyond it `OverflowError` yields the sentinel), the
millisecond field equals `⌊fractional-part · 1000⌋`; and on the IEEE double
nearest to `1.2345` (namely `5559693739988877 / 2^52`) the output is
`00:00:01,234`. -/
theorem c4_truncation_amended :
    (∀ m : ℕ, (m : ℤ) ≤ tdMaxUs →
      format_time (some ((m : ℚ) / 1000000)) = renderUs (m : ℤ) ∧
      (ftFields (m : ℤ)).2.2.2 = m % 1000000 / 1000 ∧
      ⌊Int.fract ((m : ℚ) / 1000000) * 1000⌋ = ((m % 1000000 / 1000 : ℕ) : ℤ)) ∧
    format_time (some ((5559693739988877 : ℚ) / 4503599627370496)) =
      "00:00:01,234" := by
  constructor
  · intro m hm
    refine ⟨?_, ?_, ?_⟩
    · exact format_time_eval_int _ (m : ℤ) (by push_cast; field_simp)
        (le_trans (by decide) (Int.natCast_nonneg m)) hm
    · show ((m : ℤ) % usPerDay).toNat % 1000000 / 1000 = m % 1000000 / 1000
      rw [show usPerDay = (86400000000 : ℤ) from rfl]
      omega
    · have hfr : Int.fract ((m : ℚ) / 1000000) =
          ((m % 1000000 : ℕ) : ℚ) / 1000000 := by
        unfold Int.fract
        rw [floor_natCast_div_million m, Int.cast_natCast]
        have hsplit : (m : ℚ) =
            ((m / 1000000 : ℕ) : ℚ) * 1000000 + ((m % 1000000 : ℕ) : ℚ) := by
          exact_mod_cast (show m = m / 1000000 * 1000000 + m % 1000000 by omega)
        rw [hsplit]
        field_simp
        try ring
      rw [hfr]
      have hsc : ((m % 1000000 : ℕ) : ℚ) / 1000000 * 1000 =
          ((m % 1000000 : ℕ) : ℚ) / 1000 := by
        field_simp
        try ring
      rw [hsc, floor_natCast_div_thousand (m % 1000000)]
  · have hup := @roundHalfEven_eq_up
      ((5559693739988877 : ℚ) / 4503599627370496 * 1000000) 1234499
      (by norm_num) (by norm_num)
    rw [format_time_of_in_range _ (by rw [hup]; decide) (by rw [hup]; decide),
      hup]
    decide

/-- Witness for C4 (amended) at `m = 1234500` microseconds (`1.2345` seconds
exactly): in range, and the millisecond field is `234 = ⌊0.2345 · 1000⌋`. -/
theorem c4_witness :
    ((1234500 : ℕ) : ℤ) ≤ tdMaxUs ∧
      (format_time (some (((1234500 : ℕ) : ℚ) / 1000000)) =
          renderUs ((1234500 : ℕ) : ℤ) ∧
        (ftFields ((1234500 : ℕ) : ℤ)).2.2.2 = 1234500 % 1000000 / 1000 ∧
        ⌊Int.fract (((1234500 : ℕ) : ℚ) / 1000000) * 1000⌋ =
          ((1234500 % 1000000 / 1000 : ℕ) : ℤ)) :=
  ⟨by decide, c4_truncation_amended.1 1234500 (by decide)⟩

/-- Counterexample to claim C4 as stated: the input `67077/2^26` (an exactly
representable IEEE double, about `999.525` microseconds) has
`⌊fractional-part · 1000⌋ = 0`, but `timedelta` rounds it up to `1000`
microseconds, so the millisecond field of the output is `001`, not `000`. -/
theorem c4_counterexample :
    format_time (some (67077 / 67108864 : ℚ)) = "00:00:00,001" ∧
      ⌊Int.fract (67077 / 67108864 : ℚ) * 1000⌋ = 0 := by
  constructor
  · have hup := @roundHalfEven_eq_up ((67077 / 67108864 : ℚ) * 1000000) 999
      (by norm_num) (by norm_num)
    rw [format_time_of_in_range _ (by rw [hup]; decide) (by rw [hup]; decide),
      hup]
    decide
  · have hself : Int.fract (67077 / 67108864 : ℚ) = 67077 / 67108864 :=
      Int.fract_eq_self.mpr ⟨by norm_num, by norm_num⟩
    rw [hself, Int.floor_eq_zero_iff, Set.mem_Ico]
    constructor
    · norm_num
    · norm_num

/-! ## Claim C1 -/

/-- Claim C1 fails on the code: the character class of the punctuation regex
is terminated early by its unescaped `]`, so `remove_punctuation` does not
remove a lone punctuation character at all — the fullwidth comma `，` (a
member of the pattern's own character class) survives unchanged. -/
theorem c1_remove_punctuation_keeps_punctuation :
    remove_punctuation "，" = "，" ∧ '，' ∈ punctClass ∧
      '，' ∈ (remove_punctuation "，").data := by
  refine ⟨by decide, by decide, by decide⟩

/-! ## Claim C8 -/

/-- Claim C8, amended: the two `float(...)` conversions share one `try` block,
so the edited values are used only when *both* parse; if either edited time
field fails to parse, *both* fields revert to the model-produced segment
values (the text field is unaffected). -/
theorem c8_edit_fallback_amended :
    ∀ (start_val end_val : Option ℚ) (seg_start seg_end : ℚ),
      (∀ a b : ℚ, start_val = some a → end_val = some b →
        editedTimes start_val end_val seg_start seg_end = (a, b)) ∧
      (start_val = none ∨ end_val = none →
        editedTimes start_val end_val seg_start seg_end = (seg_start, seg_end)) := by
  intro sv ev ss se
  constructor
  · intro a b ha hb
    subst ha
    subst hb
    rfl
  · intro h
    cases sv with
    | none => rfl
    | some a =>
      cases ev with
      | none => rfl
      | some b =>
        rcases h with h | h <;> simp at h

/-- Witness for C8 (amended): a valid edited start (5) with a malformed edited
end reverts both fields to the model values (1, 2). -/
theorem c8_witness :
    editedTimes (some 5) none 1 2 = (1, 2) :=
  (c8_edit_fallback_amended (some 5) none 1 2).2 (Or.inr rfl)

/-- Counterexample to claim C8 as stated: with model values (1, 2), an edited
start of 5 and a malformed edited end, the claim demands (5, 2) — the edited
start kept, only the end reverted — but the code reverts both and yields
(1, 2). -/
theorem c8_counterexample :
    editedTimes (some 5) none 1 2 = (1, 2) ∧
      editedTimes (some 5) none 1 2 ≠ (5, 2) := by
  refine ⟨rfl, by decide⟩

/-! ## Claim C9 -/

/-- Claim C9 fails on the code: `os.unlink(temp_audio_path)` is the statement
after `model.transcribe(...)` with no `try`/`finally`, so when transcription
raises, the unlink never executes and the temporary audio file persists; it
is deleted only on the success path. -/
theorem c9_temp_file_leaked_on_error :
    tempFileExists (mainTempEvents (Except.error "transcribe raised")) = true ∧
      tempFileExists (mainTempEvents (Except.ok [])) = false :=
  ⟨rfl, rfl⟩

/-! ## Helper lemmas: splitting documents into lines -/

theorem splitOnChar_ne_nil (sep : Char) (l : List Char) : splitOnChar sep l ≠ [] := by
  induction l with
  | nil => simp [splitOnChar]
  | cons c rest ih =>
    simp only [splitOnChar]
    cases h : splitOnChar sep rest with
    | nil => simp
    | cons g gs => by_cases hc : c = sep <;> simp [hc]

theorem splitOnChar_append_cons (sep : Char) (xs ys : List Char) (h : sep ∉ xs) :
    splitOnChar sep (xs ++ sep :: ys) = xs :: splitOnChar sep ys := by
  induction xs with
  | nil =>
    simp only [List.nil_append, splitOnChar]
    cases hy : splitOnChar sep ys with
    | nil => exact absurd hy (splitOnChar_ne_nil sep ys)
    | cons g gs => simp [← hy]
  | cons c xs ih =>
    have h1 : sep ≠ c := fun e => h (e ▸ List.mem_cons_self c xs)
    have h2 : sep ∉ xs := fun e => h (List.mem_cons_of_mem c e)
    simp only [List.cons_append, splitOnChar, List.append_eq, ih h2]
    rw [if_neg (fun e => h1 e.symm)]

theorem docLines_append (line rest : String) (h : '\n' ∉ line.data) :
    docLines (line ++ "\n" ++ rest) = line :: docLines rest := by
  unfold docLines
  have hd : (line ++ "\n" ++ rest).data = line.data ++ '\n' :: rest.data := by
    rw [String.data_append, String.data_append]
    simp
  rw [hd, splitOnChar_append_cons _ _ _ h, List.map_cons]

theorem newline_not_mem_timeRange (a b : Option ℚ) :
    '\n' ∉ (format_time a ++ " --> " ++ format_time b).data := by
  rw [String.data_append, String.data_append]
  intro hmem
  rcases List.mem_append.mp hmem with h1 | h1
  · rcases List.mem_append.mp h1 with h2 | h2
    · exact newline_not_mem_format_time a h2
    · exact absurd h2 (by decide)
  · exact newline_not_mem_format_time b h1

/-! ## Helper lemmas: evaluating `srtBlock` and `generate_srtAux` -/

theorem newline_not_mem_targetTextOf (t2s_conv s2t_conv : Option (String → String))
    (target_lang : String) (seg : Segment) :
    '\n' ∉ (targetTextOf t2s_conv s2t_conv target_lang seg).data :=
  newline_not_mem_remove_punctuation _

theorem srtBlock_eq_bilingual (t2s_conv s2t_conv : Option (String → String))
    (target_lang : String) (source_texts : List String) (use_bilingual : Bool)
    (idx : ℕ) (seg : Segment)
    (hb : (use_bilingual && !source_texts.isEmpty) = true)
    {st : String} (hst : source_texts[idx - 1]? = some st) :
    srtBlock t2s_conv s2t_conv target_lang source_texts use_bilingual idx seg =
      some (decRepr idx ++ "\n" ++ format_time seg.start ++ " --> " ++
        format_time seg.stop ++ "\n" ++ remove_punctuation (pyStrip st) ++ "\n" ++
        targetTextOf t2s_conv s2t_conv target_lang seg ++ "\n\n") := by
  simp only [srtBlock, hb, hst, if_true]

theorem srtBlock_eq_mono (t2s_conv s2t_conv : Option (String → String))
    (target_lang : String) (source_texts : List String) (use_bilingual : Bool)
    (idx : ℕ) (seg : Segment)
    (hb : (use_bilingual && !source_texts.isEmpty) = false) :
    srtBlock t2s_conv s2t_conv target_lang source_texts use_bilingual idx seg =
      some (decRepr idx ++ "\n" ++ format_time seg.start ++ " --> " ++
        format_time seg.stop ++ "\n" ++
        targetTextOf t2s_conv s2t_conv target_lang seg ++ "\n\n") := by
  simp only [srtBlock, hb, Bool.false_eq_true, if_false]

theorem generate_srtAux_lines (t2s_conv s2t_conv : Option (String → String))
    (target_lang : String) (source_texts : List String) (use_bilingual : Bool) :
    ∀ (segs : List Segment) (idx : ℕ),
      ((use_bilingual && !source_texts.isEmpty) = true →
        idx - 1 + segs.length ≤ source_texts.length) →
      1 ≤ idx →
      ∃ doc,
        generate_srtAux t2s_conv s2t_conv target_lang source_texts use_bilingual
            idx segs = some doc ∧
          docLines doc =
            expectedLines t2s_conv s2t_conv target_lang source_texts use_bilingual
              idx segs ++ [""] := by
  intro segs
  induction segs with
  | nil =>
    intro idx _ _
    exact ⟨"", rfl, rfl⟩
  | cons seg rest ih =>
    intro idx hok hidx
    cases hb : (use_bilingual && !source_texts.isEmpty) with
    | true =>
      have hlen := hok hb
      rw [List.length_cons] at hlen
      have hlt : idx - 1 < source_texts.length := by omega
      obtain ⟨st, hst⟩ : ∃ st, source_texts[idx - 1]? = some st :=
        ⟨_, List.getElem?_eq_getElem hlt⟩
      obtain ⟨tail, htail, hlines⟩ := ih (idx + 1)
        (fun _ => by rw [show idx + 1 - 1 = idx - 1 + 1 by omega]; omega)
        (by omega)
      have hblock := srtBlock_eq_bilingual t2s_conv s2t_conv target_lang
        source_texts use_bilingual idx seg hb hst
      refine ⟨_, by simp only [generate_srtAux, hblock, htail]; rfl, ?_⟩
      have hassoc :
          (decRepr idx ++ "\n" ++ format_time seg.start ++ " --> " ++
            format_time seg.stop ++ "\n" ++ remove_punctuation (pyStrip st) ++
            "\n" ++ targetTextOf t2s_conv s2t_conv target_lang seg ++ "\n\n") ++
            tail =
          decRepr idx ++ "\n" ++
            ((format_time seg.start ++ " --> " ++ format_time seg.stop) ++ "\n" ++
              (remove_punctuation (pyStrip st) ++ "\n" ++
                (targetTextOf t2s_conv s2t_conv target_lang seg ++ "\n" ++
                  ("" ++ "\n" ++ tail)))) := by
        apply String.ext
        simp [String.data_append]
      rw [hassoc,
        docLines_append _ _ (newline_not_mem_decRepr idx),
        docLines_append _ _ (newline_not_mem_timeRange seg.start seg.stop),
        docLines_append _ _ (newline_not_mem_remove_punctuation (pyStrip st)),
        docLines_append _ _ (newline_not_mem_targetTextOf t2s_conv s2t_conv
          target_lang seg),
        docLines_append _ _ (by decide), hlines]
      have hgd : source_texts.getD (idx - 1) "" = st := by
        rw [List.getD_eq_getElem?_getD, hst]
        rfl
      simp [expectedLines, blockLines, hb, hgd, hst]
    | false =>
      obtain ⟨tail, htail, hlines⟩ := ih (idx + 1)
        (fun hb2 => absurd hb2 (by rw [hb]; simp))
        (by omega)
      have hblock := srtBlock_eq_mono t2s_conv s2t_conv target_lang
        source_texts use_bilingual idx seg hb
      refine ⟨_, by simp only [generate_srtAux, hblock, htail]; rfl, ?_⟩
      have hassoc :
          (decRepr idx ++ "\n" ++ format_time seg.start ++ " --> " ++
            format_time seg.stop ++ "\n" ++
            targetTextOf t2s_conv s2t_conv target_lang seg ++ "\n\n") ++ tail =
          decRepr idx ++ "\n" ++
            ((format_time seg.start ++ " --> " ++ format_time seg.stop) ++ "\n" ++
              (targetTextOf t2s_conv s2t_conv target_lang seg ++ "\n" ++
                ("" ++ "\n" ++ tail))) := by
        apply String.ext
        simp [String.data_append]
      rw [hassoc,
        docLines_append _ _ (newline_not_mem_decRepr idx),
        docLines_append _ _ (newline_not_mem_timeRange seg.start seg.stop),
        docLines_append _ _ (newline_not_mem_targetTextOf t2s_conv s2t_conv
          target_lang seg),
        docLines_append _ _ (by decide), hlines]
      simp [expectedLines, blockLines, hb]

/-! ## Helper lemmas: lengths and index lines of the expected line list -/

theorem blockLines_length (t2s_conv s2t_conv : Option (String → String))
    (target_lang : String) (source_texts : List String) (use_bilingual : Bool)
    (idx : ℕ) (seg : Segment) :
    (blockLines t2s_conv s2t_conv target_lang source_texts use_bilingual idx
        seg).length = srtStride source_texts use_bilingual := by
  unfold blockLines srtStride
  cases hb : (use_bilingual && !source_texts.isEmpty) <;> simp [hb]

theorem expectedLines_length (t2s_conv s2t_conv : Option (String → String))
    (target_lang : String) (source_texts : List String) (use_bilingual : Bool) :
    ∀ (segs : List Segment) (idx : ℕ),
      (expectedLines t2s_conv s2t_conv target_lang source_texts use_bilingual idx
          segs).length = srtStride source_texts use_bilingual * segs.length := by
  intro segs
  induction segs with
  | nil => intro idx; simp [expectedLines]
  | cons seg rest ih =>
    intro idx
    simp only [expectedLines, List.length_append, ih (idx + 1),
      blockLines_length, List.length_cons]
    ring

theorem expectedLines_getElem (t2s_conv s2t_conv : Option (String → String))
    (target_lang : String) (source_texts : List String) (use_bilingual : Bool) :
    ∀ (segs : List Segment) (idx i : ℕ), i < segs.length →
      (expectedLines t2s_conv s2t_conv target_lang source_texts use_bilingual idx
          segs)[srtStride source_texts use_bilingual * i]? =
        some (decRepr (idx + i)) := by
  intro segs
  induction segs with
  | nil => intro idx i hi; simp at hi
  | cons seg rest ih =>
    intro idx i hi
    have hstride := blockLines_length t2s_conv s2t_conv target_lang source_texts
      use_bilingual idx seg
    cases i with
    | zero =>
      rw [Nat.mul_zero]
      simp only [expectedLines]
      have hpos : 0 < (blockLines t2s_conv s2t_conv target_lang source_texts
          use_bilingual idx seg).length := by
        rw [hstride]
        unfold srtStride
        cases (use_bilingual && !source_texts.isEmpty) <;> simp
      rw [List.getElem?_append, if_pos hpos]
      unfold blockLines
      cases hb : (use_bilingual && !source_texts.isEmpty) <;> simp [hb]
    | succ j =>
      have hj : j < rest.length := by
        rw [List.length_cons] at hi
        omega
      simp only [expectedLines]
      rw [List.getElem?_append_right (by rw [hstride]; ring_nf; omega)]
      rw [hstride]
      rw [show srtStride source_texts use_bilingual * (j + 1) -
        srtStride source_texts use_bilingual =
        srtStride source_texts use_bilingual * j by ring_nf; omega]
      rw [ih (idx + 1) j hj]
      rw [show idx + 1 + j = idx + (j + 1) by omega]

/-! ## Claim C6 -/

/-- Claim C6: whenever `generate_srt` produces a document (in bilingual mode
this needs enough source texts), the document's lines are exactly the expected
blocks of the input segments in input order followed by the final empty chunk;
in particular there are `stride · N + 1` lines (`stride` = 4 or 5 lines per
block) and the line starting block `i` (0-based) is the index line
`decRepr (i+1)`, so the index lines are exactly `1..N` in order. -/
theorem c6_generate_srt_indices (t2s_conv s2t_conv : Option (String → String))
    (segments : List Segment) (target_lang : String) (source_texts : List String)
    (use_bilingual : Bool)
    (hok : (use_bilingual && !source_texts.isEmpty) = true →
      segments.length ≤ source_texts.length) :
    ∃ doc,
      generate_srt t2s_conv s2t_conv segments target_lang source_texts
          use_bilingual = some doc ∧
        docLines doc =
          expectedLines t2s_conv s2t_conv target_lang source_texts use_bilingual
            1 segments ++ [""] ∧
        (docLines doc).length =
          srtStride source_texts use_bilingual * segments.length + 1 ∧
        ∀ i, i < segments.length →
          (docLines doc)[srtStride source_texts use_bilingual * i]? =
            some (decRepr (i + 1)) := by
  obtain ⟨doc, hgen, hlines⟩ := generate_srtAux_lines t2s_conv s2t_conv
    target_lang source_texts use_bilingual segments 1
    (fun hb => by simpa using hok hb) (le_refl 1)
  refine ⟨doc, hgen, hlines, ?_, ?_⟩
  · rw [hlines, List.length_append,
      expectedLines_length t2s_conv s2t_conv target_lang source_texts
        use_bilingual segments 1]
    rfl
  · intro i hi
    have hs : srtStride source_texts use_bilingual = 5 ∨
        srtStride source_texts use_bilingual = 4 := by
      unfold srtStride
      cases (use_bilingual && !source_texts.isEmpty) <;> simp
    have hlt : srtStride source_texts use_bilingual * i <
        (expectedLines t2s_conv s2t_conv target_lang source_texts use_bilingual
          1 segments).length := by
      rw [expectedLines_length]
      rcases hs with h | h <;> rw [h] <;> omega
    rw [hlines, List.getElem?_append, if_pos hlt,
      expectedLines_getElem t2s_conv s2t_conv target_lang source_texts
        use_bilingual segments 1 i hi,
      show 1 + i = i + 1 by omega]

/-- Witness for C6 at a concrete one-segment monolingual input. -/
theorem c6_witness :
    ∃ doc,
      generate_srt none none [⟨none, none, "hi"⟩] "英文" [] false = some doc ∧
        docLines doc =
          expectedLines none none "英文" [] false 1 [⟨none, none, "hi"⟩] ++ [""] ∧
        (docLines doc).length = srtStride [] false * 1 + 1 ∧
        ∀ i, i < ([⟨none, none, "hi"⟩] : List Segment).length →
          (docLines doc)[srtStride [] false * i]? = some (decRepr (i + 1)) := by
  have h := c6_generate_srt_indices none none [⟨none, none, "hi"⟩] "英文" [] false
    (fun hb => by simp at hb)
  simpa using h

/-! ## Claim C7 -/

theorem generate_srtAux_short_sources (t2s_conv s2t_conv : Option (String → String))
    (target_lang : String) (source_texts : List String)
    (hne : source_texts ≠ []) :
    ∀ (segs : List Segment) (idx : ℕ), segs ≠ [] → 1 ≤ idx →
      source_texts.length + 1 < idx + segs.length →
      generate_srtAux t2s_conv s2t_conv target_lang source_texts true idx segs =
        none := by
  have hbil : (true && !source_texts.isEmpty) = true := by
    cases source_texts with
    | nil => exact absurd rfl hne
    | cons a l => rfl
  intro segs
  induction segs with
  | nil => intro idx h; exact absurd rfl h
  | cons seg rest ih =>
    intro idx _ hidx hlen
    rw [List.length_cons] at hlen
    rcases Nat.lt_or_ge (idx - 1) source_texts.length with hlt | hge
    · obtain ⟨st, hst⟩ : ∃ st, source_texts[idx - 1]? = some st :=
        ⟨_, List.getElem?_eq_getElem hlt⟩
      have hblock := srtBlock_eq_bilingual t2s_conv s2t_conv target_lang
        source_texts true idx seg hbil hst
      have hrest : rest ≠ [] := by
        intro h
        subst h
        simp only [List.length_nil] at hlen
        omega
      have hreclen : source_texts.length + 1 < (idx + 1) + rest.length := by
        omega
      simp only [generate_srtAux, hblock, ih (idx + 1) hrest (by omega) hreclen]
    · have hst : source_texts[idx - 1]? = none := List.getElem?_eq_none hge
      have hblock : srtBlock t2s_conv s2t_conv target_lang source_texts true idx
          seg = none := by
        simp only [srtBlock, hbil, hst, if_true]
      simp only [generate_srtAux, hblock]

/-- Claim C7, amended: the code performs no length validation at the boundary.
With bilingual mode and a non-empty source list shorter than the segment list,
`generate_srt` aborts with an index-out-of-range error (no document is
produced) when the loop first reads past the end of the source list; and with
an *empty* source list, bilingual mode is silently ignored (the truthiness
test `use_bilingual and source_texts` fails) and a monolingual document is
produced instead of any error. -/
theorem c7_generate_srt_short_sources_amended
    (t2s_conv s2t_conv : Option (String → String)) (segments : List Segment)
    (target_lang : String) (source_texts : List String)
    (hne : source_texts ≠ []) (hlen : source_texts.length < segments.length) :
    generate_srt t2s_conv s2t_conv segments target_lang source_texts true =
      none := by
  have hsegs : segments ≠ [] := by
    intro h
    subst h
    simp only [List.length_nil] at hlen
    omega
  exact generate_srtAux_short_sources t2s_conv s2t_conv target_lang source_texts
    hne segments 1 hsegs (le_refl 1) (by omega)

/-- Witness for C7 (amended): one source text, two segments, bilingual mode:
the generator raises (returns no document). -/
theorem c7_witness :
    (["a"] : List String) ≠ [] ∧
      (["a"] : List String).length <
        ([⟨none, none, "x"⟩, ⟨none, none, "y"⟩] : List Segment).length ∧
      generate_srt none none [⟨none, none, "x"⟩, ⟨none, none, "y"⟩] "英文" ["a"]
        true = none := by
  refine ⟨by simp, by simp, ?_⟩
  exact c7_generate_srt_short_sources_amended none none
    [⟨none, none, "x"⟩, ⟨none, none, "y"⟩] "英文" ["a"] (by simp) (by simp)

/-- Counterexample to claim C7 as stated: with bilingual mode requested and an
*empty* source-text list (shorter than the one-segment list), the code does
not validate and fail — it silently produces a monolingual document. -/
theorem c7_counterexample :
    ([] : List String).length < ([⟨none, none, "hi"⟩] : List Segment).length ∧
      generate_srt none none [⟨none, none, "hi"⟩] "英文" [] true =
        some "1\n00:00:00,000 --> 00:00:00,000\nhi\n\n" := by
  refine ⟨by decide, by decide⟩
